import Mathlib

/-!
# Verification of the threat-detection relay classifier

Shallow embedding of `src/index.js` of the DES222 threat-detection backend:
the negation-aware keyword classifier `isThreatDescription`, the helper
`parseBooleanLike`, the post-fetch logic of `analyseImage`, and the POST
handler's verdict/response assembly.

Strings are modelled as `List Char`.  The JavaScript regexes are embedded
char-level with JS semantics: `\w` is `[A-Za-z0-9_]`, `\b` is a transition
between a word char and a non-word char (or a string edge), `\s` is the JS
whitespace class, and `RegExp.test` is an existential match over all start
positions (backtracking is complete, so the existential semantics coincide
with JS's `test`).
-/

/-- JS `\w` (word character): `[A-Za-z0-9_]`. -/
def isWordChar (c : Char) : Bool :=
  let n := c.toNat
  (65 ≤ n && n ≤ 90) || (97 ≤ n && n ≤ 122) || (48 ≤ n && n ≤ 57) || n = 95

/-- JS `\s` (whitespace class): tab, LF, VT, FF, CR, space, NBSP, Ogham space,
the U+2000–U+200A range, LS, PS, NNBSP, MMSP, ideographic space and BOM. -/
def isSpaceChar (c : Char) : Bool :=
  let n := c.toNat
  n = 32 || n = 9 || n = 10 || n = 13 || n = 11 || n = 12 ||
  n = 160 || n = 5760 || (8192 ≤ n && n ≤ 8202) ||
  n = 8232 || n = 8233 || n = 8239 || n = 8287 || n = 12288 || n = 65279

/-- The apostrophe character (U+0027), written by code point to keep it
out of the literal text of the file. -/
def apostropheChar : Char := Char.ofNat 39

/-- Accumulator pass splitting a char list into its maximal runs of word
characters (the "words" in the sense of the JS `\b` boundaries). -/
def wordsOfAux : List Char → List Char → List (List Char)
  | acc, [] => if acc.isEmpty then [] else [acc.reverse]
  | acc, c :: rest =>
    if isWordChar c then wordsOfAux (c :: acc) rest
    else if acc.isEmpty then wordsOfAux [] rest
    else acc.reverse :: wordsOfAux [] rest

/-- The maximal word-character runs of a char list.  For a keyword `k`
made only of word characters, the JS test `/\bk\b/.test(s)` holds iff `k`
is a member of `wordsOf s`: a match needs non-word chars (or edges) on both
sides, which makes the occurrence a maximal run, and conversely. -/
def wordsOf (s : List Char) : List (List Char) := wordsOfAux [] s

/-- Whole-word containment: embedding of `/\b(k)\b/.test(s)` for a keyword
`k` consisting only of word characters. -/
def containsWord (kw : List Char) (s : List Char) : Bool :=
  (wordsOf s).contains kw

/-- Lowercasing as in `String(text).toLowerCase()` (ASCII letters; the
keywords and fallback strings involved are all ASCII). -/
def lowerData (t : String) : List Char := t.data.map Char.toLower

/-! ## The negation regex

`/\b(no|not|none|without|never|unlikely|n't)\b(?:(?:\s+\w+){0,6})\s*\b(threat|danger|weapon|gun|knife|bomb|explosive|attack|violence|shooting|stabbing|hostage)\b/`
(`src/index.js` line 111), embedded as an explicit scanner:
`negScanAux` tries a match attempt at every position (tracking the previous
character for `\b`), `negMatchCore` matches the negation word and delegates
the bounded window to `negWindowMatch`.

In `negWindowMatch`, each `\s+\w+` repetition necessarily consumes one
maximal whitespace run followed by one maximal word run: consuming a
partial whitespace run leaves `\w` facing whitespace, and consuming a
partial word run leaves the next `\s`/`\b` facing a word character, so all
partial-consumption branches of the backtracking search are dead and the
existential `test` semantics are preserved by committing to maximal runs.
Likewise `\s*` before the threat word must consume the whole whitespace
run, and the trailing `\b` forces the threat word to be a maximal run. -/

/-- The negation words of the regex alternation that consist only of word
characters (all of them except `n't`). -/
def negSixTokens : List (List Char) :=
  ["no", "not", "none", "without", "never", "unlikely"].map String.data

/-- The negation words of the regex alternation, including the `n't`
alternative (whose middle character is a literal apostrophe). -/
def negWords : List (List Char) :=
  negSixTokens ++ [['n', apostropheChar, 't']]

/-- The threat terms that a negation word suppresses (second group of the
negation regex). -/
def negThreatWords : List (List Char) :=
  ["threat", "danger", "weapon", "gun", "knife", "bomb", "explosive",
   "attack", "violence", "shooting", "stabbing", "hostage"].map String.data

/-- `\b` before a position, given the preceding character (`none` at the
string start), for a pattern continuing with a word character. -/
def boundaryBefore : Option Char → Bool
  | none => true
  | some c => !isWordChar c

/-- `\b` after a pattern that ended in a word character, looking at the
remaining suffix. -/
def boundaryAfter : List Char → Bool
  | [] => true
  | c :: _ => !isWordChar c

/-- `\s*\b(threat|…)\b` at the current position, where the previously
consumed character is a word character (so at least one whitespace char is
needed before the threat word can start on a `\b`). -/
def threatAt (s : List Char) : Bool :=
  let sp := s.takeWhile isSpaceChar
  let rest := s.dropWhile isSpaceChar
  !sp.isEmpty &&
    negThreatWords.any (fun tw =>
      tw.isPrefixOf rest && boundaryAfter (rest.drop tw.length))

/-- `(?:(?:\s+\w+){0,6})\s*\b(threat|…)\b`: the fuel counts the remaining
allowed `\s+\w+` repetitions (initially 6). -/
def negWindowMatch : Nat → List Char → Bool
  | 0, s => threatAt s
  | fuel + 1, s =>
    threatAt s ||
    (let rest := s.dropWhile isSpaceChar
     !(s.takeWhile isSpaceChar).isEmpty &&
       (!(rest.takeWhile isWordChar).isEmpty &&
        negWindowMatch fuel (rest.dropWhile isWordChar)))

/-- A match attempt of the negation regex at the current position, without
the leading `\b` (which `negMatchAt` adds): one negation word, its trailing
`\b`, then the bounded window and the threat word. -/
def negMatchCore (s : List Char) : Bool :=
  negWords.any (fun nw =>
    nw.isPrefixOf s &&
    (boundaryAfter (s.drop nw.length) &&
     negWindowMatch 6 (s.drop nw.length)))

/-- A match attempt of the negation regex at the current position, given
the preceding character.  All negation words start with a word character,
so the leading `\b` is `boundaryBefore`. -/
def negMatchAt (prev : Option Char) (s : List Char) : Bool :=
  boundaryBefore prev && negMatchCore s

/-- Scan for a negation-regex match at every position of the string. -/
def negScanAux : Option Char → List Char → Bool
  | _, [] => false
  | prev, c :: rest => negMatchAt prev (c :: rest) || negScanAux (some c) rest

/-- `negationRegex.test(lower)` (`src/index.js` line 112). -/
def negationTest (s : List Char) : Bool := negScanAux none s

/-! ## The strong, weak and certainty regexes

These are plain whole-word alternations of keywords made only of word
characters, so their `test` is whole-word containment of one of the
alternatives.  The optional-suffix patterns of the certainty regex are
expanded into all their forms (`appears?` into `appear`/`appears`,
`seems?` into `seem`/`seems`, `looks?` into `look`/`looks`,
`indicat(?:es|ing)?` into `indicat`/`indicates`/`indicating`,
`suggest(?:s|ing)?` into `suggest`/`suggests`/`suggesting`).  The
alternatives `detected a` and `detected an` are subsumed by `detected`:
any match of them contains a whole-word match of `detected`, so they do
not change the boolean `test`. -/

/-- Keywords of `strongRegex` (`src/index.js` line 115). -/
def strongWords : List (List Char) :=
  ["weapon", "gun", "knife", "bomb", "explosive", "rifle", "pistol",
   "shooting", "stabbing", "hostage", "explosion", "grenade",
   "shooter"].map String.data

/-- Keywords of `weakRegex` (`src/index.js` line 119). -/
def weakWords : List (List Char) :=
  ["threat", "danger", "risk", "suspicious", "hazard", "unsafe"].map
    String.data

/-- Keywords of `certaintyRegex` (`src/index.js` line 121), with the
optional-suffix patterns expanded. -/
def certaintyWords : List (List Char) :=
  ["detected", "confirmed", "likely", "possible", "probable", "suspected",
   "observed", "identified", "found", "appear", "appears", "seem", "seems",
   "may", "might", "possibly", "indicat", "indicates", "indicating",
   "suggest", "suggests", "suggesting", "look", "looks"].map String.data

/-- `strongRegex.test(lower)`. -/
def strongTest (s : List Char) : Bool :=
  strongWords.any (fun kw => containsWord kw s)

/-- `weakRegex.test(lower)`. -/
def weakTest (s : List Char) : Bool :=
  weakWords.any (fun kw => containsWord kw s)

/-- `certaintyRegex.test(lower)`. -/
def certaintyTest (s : List Char) : Bool :=
  certaintyWords.any (fun kw => containsWord kw s)

/-- The classifier body on the lowercased text (`src/index.js`
lines 110–124): negation short-circuits, then strong keywords, then weak
keywords with a certainty word. -/
def classifyChars (lower : List Char) : Bool :=
  if negationTest lower then false
  else if strongTest lower then true
  else weakTest lower && certaintyTest lower

/-- `isThreatDescription(text)` (`src/index.js` lines 106–125).  A `none`
argument models a JS `null`/`undefined` argument; the `text = ""` case is
the other falsy string input caught by `if (!text) return false`. -/
def isThreatDescription : Option String → Bool
  | none => false
  | some t => if t = "" then false else classifyChars (lowerData t)

/-! ## `parseBooleanLike`

`src/index.js` lines 97–103.  JS values reaching the helper are modelled
by `JsValue`; JS numbers are modelled as integers (the float specifics
play no role in the claims, and `-0 !== 0` is false in JS just as
`(-0 : Int) ≠ 0` is false here). -/

/-- A JavaScript value as far as `parseBooleanLike` and the handler's flag
scan distinguish them. -/
inductive JsValue where
  | bool (b : Bool)
  | num (n : Int)
  | str (s : String)
  | null
  | undef
deriving DecidableEq

/-- Trim leading and trailing JS whitespace, as `String.prototype.trim`. -/
def trimChars (s : List Char) : List Char :=
  ((s.dropWhile isSpaceChar).reverse.dropWhile isSpaceChar).reverse

/-- The accepted truthy strings `['true', 'yes', '1', 'y']`. -/
def boolLikeWords : List (List Char) :=
  ["true", "yes", "1", "y"].map String.data

/-- `parseBooleanLike(val)`: booleans pass through, numbers test `!== 0`,
other falsy values (`null`, `undefined`, `""`) give `false`, and remaining
strings are lowercased, trimmed and compared to the accepted list. -/
def parseBooleanLike : JsValue → Bool
  | .bool b => b
  | .num n => n != 0
  | .null => false
  | .undef => false
  | .str s =>
    if s = "" then false
    else boolLikeWords.contains (trimChars (s.data.map Char.toLower))

/-! ## The relay (`analyseImage`, post-fetch logic)

`src/index.js` lines 57–87.  The network part (fetch, agents, abort
timer) is plumbing; what the claims are about is how each upstream outcome
is turned into a description.  A missing `candidates` field and an empty
`candidates` array behave identically (`result.candidates &&
result.candidates.length` fails for both) and are both modelled by an
empty candidate list. -/

/-- One `parts` entry of a Gemini candidate; `text` may be absent. -/
structure GeminiPart where
  text : Option String
deriving DecidableEq

/-- The `content` object of a Gemini candidate. -/
structure GeminiContent where
  parts : List GeminiPart
deriving DecidableEq

/-- One Gemini candidate; `content` may be absent. -/
structure GeminiCandidate where
  content : Option GeminiContent
deriving DecidableEq

/-- The possible outcomes of the upstream call: an abort (the `catch`
returns `null`, so `if (!response) return 'Could not reach Gemini
(timeout)'` fires), a non-success HTTP status, or a parsed JSON body. -/
inductive UpstreamOutcome where
  | timeout
  | httpError (status : Nat)
  | ok (candidates : List GeminiCandidate)
deriving DecidableEq

/-- `analyseImage` after the fetch: `none` models the JS `undefined`
returned when the first part has no `text` field (`parts[0]['text']`). -/
def analyseImage : UpstreamOutcome → Option String
  | .timeout => some "Could not reach Gemini (timeout)"
  | .httpError _ => some "Could not analyse image"
  | .ok cands =>
    match cands with
    | [] => some "Could not analyse image"
    | c :: _ =>
      match c.content with
      | none => some "Could not analyse image"
      | some ct =>
        match ct.parts with
        | [] => some "Could not analyse image"
        | p :: _ => p.text

/-! ## The POST handler (`src/index.js` lines 127–179) -/

/-- A structured upstream result, for the handler's forward-compatibility
branch: the five recognized flag fields (`hasOwnProperty` is modelled by
`Option`) and the optional `description` field. -/
structure JsObject where
  hasThreatF : Option JsValue
  isThreatF : Option JsValue
  alertF : Option JsValue
  threatF : Option JsValue
  dangerF : Option JsValue
  descriptionF : Option String
deriving DecidableEq

/-- The ordered flag list `['hasThreat', 'isThreat', 'alert', 'threat',
'danger']` read off a structured result. -/
def possibleFlagsOf (o : JsObject) : List (Option JsValue) :=
  [o.hasThreatF, o.isThreatF, o.alertF, o.threatF, o.dangerF]

/-- The handler's flag loop: a present flag overwrites the accumulator
with its parsed value, and a `true` parse breaks out of the loop. -/
def flagLoop : Bool → List (Option JsValue) → Bool
  | acc, [] => acc
  | acc, none :: rest => flagLoop acc rest
  | _, some v :: rest =>
    let b := parseBooleanLike v
    if b then true else flagLoop b rest

/-- Verdict for a structured result: the flag loop, then (only when no
flag was true and `description` is truthy) the textual classifier. -/
def objVerdict (o : JsObject) : Bool :=
  if flagLoop false (possibleFlagsOf o) then true
  else
    match o.descriptionF with
    | none => false
    | some d => if d = "" then false else isThreatDescription (some d)

/-- What `analyseImage` handed to the POST handler: `undefined`, a string,
or (forward compatibility) a structured object. -/
inductive RelayResult where
  | undef
  | str (s : String)
  | obj (o : JsObject)
deriving DecidableEq

/-- Lift the modelled `analyseImage` return into a handler input. -/
def toRelay : Option String → RelayResult
  | none => .undef
  | some s => .str s

/-- The `description` field of the response: either the coerced string or
(for a structured result, which is truthy) the object itself. -/
inductive DescriptionField where
  | str (s : String)
  | obj (o : JsObject)
deriving DecidableEq

/-- The fixed command object of a threat response. -/
structure AlertCommand where
  type : String
  action : String
  severity : String
  message : String
deriving DecidableEq

/-- The constant `response.command` payload. -/
def threatCommand : AlertCommand :=
  { type := "THREAT_ALERT"
    action := "activate_audio_alert"
    severity := "high"
    message := "Threat detected. Activating audio alert." }

/-- The JSON body sent back by the POST handler. -/
structure ResponsePayload where
  description : DescriptionField
  hasThreat : Bool
  isThreat : Bool
  alert : Bool
  command : Option AlertCommand
deriving DecidableEq

/-- `const description = result || "Could not analyse image"`. -/
def handlerDescription : RelayResult → DescriptionField
  | .undef => .str "Could not analyse image"
  | .str s => .str (if s = "" then "Could not analyse image" else s)
  | .obj o => .obj o

/-- The handler's `hasThreat` derivation: flags (with textual fallback)
for a structured result, the classifier on the coerced description
otherwise. -/
def handlerVerdict : RelayResult → Bool
  | .undef => isThreatDescription (some "Could not analyse image")
  | .str s =>
    isThreatDescription (some (if s = "" then "Could not analyse image" else s))
  | .obj o => objVerdict o

/-- Assembly of the response: the three equal boolean fields and the
command object guarded by the verdict. -/
def handlerResponse (r : RelayResult) : ResponsePayload :=
  let h := handlerVerdict r
  { description := handlerDescription r
    hasThreat := h
    isThreat := h
    alert := h
    command := if h then some threatCommand else none }

/-! ## Spec-side definitions used for comparison with the code -/

/-- The certainty/detection words exactly as the specification enumerates
them ("detected, confirmed, likely, possible, probable, suspected,
observed, identified, found, appears, seems, may, might, possibly,
indicates/indicating, suggests/suggesting, looks"), for comparison with
the code's `certaintyWords`. -/
def certaintySpecWords : List (List Char) :=
  ["detected", "confirmed", "likely", "possible", "probable", "suspected",
   "observed", "identified", "found", "appears", "seems", "may", "might",
   "possibly", "indicates", "indicating", "suggests", "suggesting",
   "looks"].map String.data

/-- Whole-word containment of one of the specification's certainty words. -/
def certaintySpecTest (s : List Char) : Bool :=
  certaintySpecWords.any (fun kw => containsWord kw s)

/-- Case-insensitive string equality (compare the lowercased character
lists), the comparison the `parseBooleanLike` claim describes. -/
def caseInsensitiveEq (a b : String) : Bool :=
  (a.data.map Char.toLower) == (b.data.map Char.toLower)

/-- The corrected characterization of `parseBooleanLike`: as the original
claim, but the string comparison happens after lowercasing and trimming
surrounding whitespace. -/
def parseBooleanLikeSpec : JsValue → Bool
  | .bool b => b
  | .num n => n != 0
  | .str s => boolLikeWords.contains (trimChars (s.data.map Char.toLower))
  | .null => false
  | .undef => false

/-! ## Claims C1, C2, C3 (classifier branches) -/

/-- C1: whenever the negation regex matches the lowercased text, the
classifier returns `false`, regardless of any strong or weak keywords
elsewhere in the text; in particular
`classify("I see no weapon here") = false`. -/
theorem negation_short_circuits :
    (∀ t : String, negationTest (lowerData t) = true →
      isThreatDescription (some t) = false) ∧
    isThreatDescription (some "I see no weapon here") = false := by
  constructor
  · intro t h
    by_cases ht : t = ""
    · subst ht; rfl
    · simp [isThreatDescription, ht, classifyChars, h]
  · decide

/-- Witness for C1 at the claim's own example text. -/
theorem negation_short_circuits_witness :
    negationTest (lowerData "I see no weapon here") = true ∧
    isThreatDescription (some "I see no weapon here") = false :=
  ⟨by decide, negation_short_circuits.1 "I see no weapon here" (by decide)⟩

/-- C2: a text containing a strong threat keyword as a whole word, on
which the negation regex does not match, classifies as a threat; in
particular `classify("There is a gun in the photo") = true`. -/
theorem strong_keyword_triggers :
    (∀ t : String, strongTest (lowerData t) = true →
      negationTest (lowerData t) = false →
      isThreatDescription (some t) = true) ∧
    isThreatDescription (some "There is a gun in the photo") = true := by
  constructor
  · intro t hs hn
    by_cases ht : t = ""
    · subst ht; exact absurd hs (by decide)
    · simp [isThreatDescription, ht, classifyChars, hn, hs]
  · decide

/-- Witness for C2 at the claim's own example text. -/
theorem strong_keyword_triggers_witness :
    strongTest (lowerData "There is a gun in the photo") = true ∧
    negationTest (lowerData "There is a gun in the photo") = false ∧
    isThreatDescription (some "There is a gun in the photo") = true :=
  ⟨by decide, by decide,
    strong_keyword_triggers.1 "There is a gun in the photo" (by decide)
      (by decide)⟩

/-- Counterexample to C3 as stated: `"the danger does appear real"` has no
negation match, no strong keyword, a weak keyword, and none of the
certainty words the claim enumerates — yet the classifier returns `true`,
because the code's regex `appears?` also matches the bare form
`appear`. -/
theorem certainty_list_counterexample :
    isThreatDescription (some "the danger does appear real") = true ∧
    negationTest (lowerData "the danger does appear real") = false ∧
    strongTest (lowerData "the danger does appear real") = false ∧
    weakTest (lowerData "the danger does appear real") = true ∧
    certaintySpecTest (lowerData "the danger does appear real") = false := by
  decide

/-- C3 amended: with the certainty list read off the code's regex (which
adds the bare forms `appear`, `seem`, `look`, `suggest` and the stem
`indicat` to the forms the claim lists), the "weak keyword and certainty
word" characterization holds for every text on which neither the negation
regex nor the strong regex matches; the claim's two examples behave as
stated. -/
theorem weak_certainty_characterization :
    (∀ t : String, negationTest (lowerData t) = false →
      strongTest (lowerData t) = false →
      (isThreatDescription (some t) = true ↔
        weakTest (lowerData t) = true ∧ certaintyTest (lowerData t) = true)) ∧
    isThreatDescription
      (some "This looks suspicious and a threat was detected") = true ∧
    isThreatDescription (some "This is a suspicious pattern") = false := by
  refine ⟨?_, by decide, by decide⟩
  intro t hn hs
  by_cases ht : t = ""
  · subst ht; decide
  · simp [isThreatDescription, ht, classifyChars, hn, hs]

/-- Witness for the amended C3 at the claim's positive example. -/
theorem weak_certainty_characterization_witness :
    negationTest
      (lowerData "This looks suspicious and a threat was detected") = false ∧
    strongTest
      (lowerData "This looks suspicious and a threat was detected") = false ∧
    isThreatDescription
      (some "This looks suspicious and a threat was detected") = true :=
  ⟨by decide, by decide,
    (weak_certainty_characterization.1
      "This looks suspicious and a threat was detected" (by decide)
      (by decide)).mpr ⟨by decide, by decide⟩⟩

/-! ## Claims C5, C6 (response assembly, failure paths) -/

/-- C5: in every assembled response the three boolean fields equal each
other and the verdict, and `command` is present exactly when the verdict
is `true`, fixed to the constant `threatCommand`; an object result whose
`description` is `"explosive device identified"` (no flags) yields verdict
`true` with the command, and the fallback string `"Could not analyse
image"` yields verdict `false` without it. -/
theorem response_payload_invariants :
    (∀ r : RelayResult,
      (handlerResponse r).isThreat = (handlerResponse r).hasThreat ∧
      (handlerResponse r).alert = (handlerResponse r).hasThreat ∧
      (handlerResponse r).hasThreat = handlerVerdict r ∧
      (handlerResponse r).command =
        (if handlerVerdict r then some threatCommand else none)) ∧
    handlerResponse
        (.obj ⟨none, none, none, none, none,
          some "explosive device identified"⟩) =
      { description := .obj ⟨none, none, none, none, none,
          some "explosive device identified"⟩
        hasThreat := true, isThreat := true, alert := true
        command := some threatCommand } ∧
    handlerResponse (.str "Could not analyse image") =
      { description := .str "Could not analyse image"
        hasThreat := false, isThreat := false, alert := false
        command := none } := by
  refine ⟨fun r => ⟨rfl, rfl, rfl, rfl⟩, by decide, by decide⟩

/-- C6: on every failure path the relay hands the handler a falsy value or
a fallback string, and the verdict computed from it is `false`; in
particular both fallback strings classify as `false`. -/
theorem failure_paths_verdict_false :
    (∀ o : UpstreamOutcome,
      analyseImage o = none ∨ analyseImage o = some "" ∨
        analyseImage o = some "Could not analyse image" ∨
        analyseImage o = some "Could not reach Gemini (timeout)" →
      handlerVerdict (toRelay (analyseImage o)) = false) ∧
    isThreatDescription (some "Could not reach Gemini (timeout)") = false ∧
    isThreatDescription (some "Could not analyse image") = false := by
  refine ⟨?_, by decide, by decide⟩
  intro o h
  rcases h with h | h | h | h <;> rw [h] <;> decide

/-- Witness for C6 on the timeout path. -/
theorem failure_paths_verdict_false_witness :
    handlerVerdict (toRelay (analyseImage .timeout)) = false :=
  failure_paths_verdict_false.1 .timeout (Or.inr (Or.inr (Or.inr rfl)))

/-! ## Claim C7 (contracted negation) -/

/-- Counterexample to C7 as stated: on the claim's own example
`"doesn't appear to be a weapon"` the classifier returns `true`, because
the leading `\b` of the `n't` alternative sits between the word characters
`s` and `n` inside the contraction and therefore never matches there. -/
theorem contracted_negation_counterexample :
    isThreatDescription (some "doesn\x27t appear to be a weapon") = true := by
  decide

/-- C7 amended: the `n't` alternative suppresses only when it stands
immediately after a non-word character, as in `"there is n't a weapon"`;
inside a real contraction such as `"doesn't"` the negation regex does not
match, so the strong keyword wins. -/
theorem contracted_negation_amended :
    isThreatDescription (some "there is n\x27t a weapon") = false ∧
    negationTest (lowerData "there is n\x27t a weapon") = true ∧
    isThreatDescription (some "doesn\x27t appear to be a weapon") = true ∧
    negationTest (lowerData "doesn\x27t appear to be a weapon") = false := by
  decide

/-! ## Claim C8 (empty and missing input) -/

/-- C8: the classifier is total on empty and missing inputs and returns
`false` on both. -/
theorem empty_and_null_classify_false :
    isThreatDescription (some "") = false ∧
    isThreatDescription none = false := by
  decide

/-! ## Claim C9 (`parseBooleanLike`) -/

/-- Counterexample to C9 as stated: `" true "` is not case-insensitively
equal to any of `"true"`, `"yes"`, `"1"`, `"y"`, so the claim says
`parseBooleanLike` returns `false` on it — but the code trims the string
and returns `true`. -/
theorem parseBooleanLike_untrimmed_counterexample :
    parseBooleanLike (.str " true ") = true ∧
    caseInsensitiveEq " true " "true" = false ∧
    caseInsensitiveEq " true " "yes" = false ∧
    caseInsensitiveEq " true " "1" = false ∧
    caseInsensitiveEq " true " "y" = false := by
  decide

/-- C9 amended: `parseBooleanLike` returns `true` exactly for the boolean
`true`, non-zero numbers, and strings that equal one of `"true"`, `"yes"`,
`"1"`, `"y"` after lowercasing and trimming surrounding whitespace;
everything else returns `false`. -/
theorem parseBooleanLike_characterization :
    ∀ v : JsValue, parseBooleanLike v = parseBooleanLikeSpec v := by
  intro v
  cases v with
  | bool b => rfl
  | num n => rfl
  | null => rfl
  | undef => rfl
  | str s =>
    by_cases hs : s = ""
    · subst hs; decide
    · simp [parseBooleanLike, parseBooleanLikeSpec, hs]

/-! ## Claim C10 (description coercion) -/

/-- C10: for every upstream outcome the response's `description` is a
string; it is exactly `"Could not analyse image"` whenever the relay
result is falsy (`undefined` or the empty string), and echoes the relay's
string otherwise. -/
theorem description_coercion :
    ∀ o : UpstreamOutcome,
      (∃ s : String,
        (handlerResponse (toRelay (analyseImage o))).description = .str s) ∧
      (analyseImage o = none ∨ analyseImage o = some "" →
        (handlerResponse (toRelay (analyseImage o))).description =
          .str "Could not analyse image") ∧
      (∀ s : String, analyseImage o = some s → s ≠ "" →
        (handlerResponse (toRelay (analyseImage o))).description =
          .str s) := by
  intro o
  cases h : analyseImage o with
  | none =>
    refine ⟨⟨"Could not analyse image", rfl⟩, fun _ => rfl, ?_⟩
    intro s hs
    exact absurd hs (by simp)
  | some s =>
    refine ⟨⟨if s = "" then "Could not analyse image" else s, rfl⟩, ?_, ?_⟩
    · rintro (h' | h')
      · exact absurd h' (by simp)
      · rw [Option.some.injEq] at h'
        subst h'
        rfl
    · intro s' hs' hne
      rw [Option.some.injEq] at hs'
      subst hs'
      simp [handlerResponse, handlerDescription, toRelay, hne]

/-- Witness for C10: a usable candidate whose first part has no `text`
field makes the relay return `undefined`, and the response description is
the fallback string. -/
theorem description_coercion_witness :
    (handlerResponse
      (toRelay (analyseImage (.ok [⟨some ⟨[⟨none⟩]⟩⟩])))).description =
      .str "Could not analyse image" :=
  (description_coercion (.ok [⟨some ⟨[⟨none⟩]⟩⟩])).2.1 (Or.inl rfl)

/-! ## Claim C4: the negation window is bounded at 6 intervening words

To make "intervening words" precise we work with texts that are
single-space joins of nonempty word-character tokens (`sepText`), where
token `i` and token `j` have `j - i - 1` intervening words.  On such
texts the scanner is characterized token by token, and a text whose
negation tokens all sit more than 6 words before every later threat token
is shown to have no negation match. -/

/-- A token usable in a space-joined text: nonempty and all word chars. -/
def goodToken (w : List Char) : Bool := !w.isEmpty && w.all isWordChar

/-- The text following the first token of a join: a space before each
further token. -/
def sepTail : List (List Char) → List Char
  | [] => []
  | w :: ws => ' ' :: (w ++ sepTail ws)

/-- The single-space join of a token list. -/
def sepText : List (List Char) → List Char
  | [] => []
  | w :: ws => w ++ sepTail ws

/-- Last element of a char list, with a default for the empty list. -/
def lastD : Char → List Char → Char
  | d, [] => d
  | _, c :: cs => lastD c cs

/-- Whether one of the first `fuel + 1` tokens is a negation-suppressible
threat term: the token-level meaning of `negWindowMatch fuel` after a
negation word. -/
def windowHit : Nat → List (List Char) → Bool
  | _, [] => false
  | 0, v :: _ => decide (v ∈ negThreatWords)
  | fuel + 1, v :: vs => decide (v ∈ negThreatWords) || windowHit fuel vs

/-- Every negation token of the list is separated from every later threat
term by more than 6 intervening tokens (no threat term among the 7 tokens
following it). -/
def sepOK : List (List Char) → Bool
  | [] => true
  | w :: ws => (!decide (w ∈ negSixTokens) || !windowHit 6 ws) && sepOK ws

/-- The negation scan restricted to token starts: on a space-joined text
every viable match attempt starts at a token. -/
def tokenScan : List (List Char) → Bool
  | [] => false
  | w :: ws => negMatchCore (sepText (w :: ws)) || tokenScan ws

/-- A word character is not a whitespace character. -/
theorem word_not_space (c : Char) (h : isWordChar c = true) :
    isSpaceChar c = false := by
  rw [Bool.eq_false_iff]
  intro hs
  simp only [isWordChar, Bool.or_eq_true, Bool.and_eq_true,
    decide_eq_true_eq] at h
  simp only [isSpaceChar, Bool.or_eq_true, Bool.and_eq_true,
    decide_eq_true_eq] at hs
  omega

/-- Unpack `goodToken` on a cons. -/
theorem goodToken_cons {c : Char} {w : List Char}
    (h : goodToken (c :: w) = true) :
    isWordChar c = true ∧ w.all isWordChar = true := by
  simpa [goodToken, List.all_cons] using h

/-- The shape of `sepTail`: empty, or starting with the joining space. -/
theorem sepTail_shape (ws : List (List Char)) :
    sepTail ws = [] ∨ ∃ t', sepTail ws = ' ' :: t' := by
  cases ws with
  | nil => exact Or.inl rfl
  | cons w ws' => exact Or.inr ⟨w ++ sepTail ws', rfl⟩

/-- `takeWhile`/`dropWhile` on a run of satisfying elements followed by a
suffix that does not start with one. -/
theorem takeWhile_append_run {p : Char → Bool} (w t : List Char)
    (hw : w.all p = true) (ht : ∀ c t', t = c :: t' → p c = false) :
    (w ++ t).takeWhile p = w ∧ (w ++ t).dropWhile p = t := by
  induction w with
  | nil =>
    cases t with
    | nil => exact ⟨rfl, rfl⟩
    | cons c t' =>
      have hc := ht c t' rfl
      exact ⟨by simp [List.takeWhile_cons, hc], by simp [List.dropWhile_cons, hc]⟩
  | cons a w' ih =>
    rw [List.all_cons, Bool.and_eq_true] at hw
    obtain ⟨ih1, ih2⟩ := ih hw.2
    constructor
    · rw [List.cons_append, List.takeWhile_cons, if_pos hw.1, ih1]
    · rw [List.cons_append, List.dropWhile_cons, if_pos hw.1, ih2]

/-- A match attempt right after a word character always fails. -/
theorem negMatchAt_after_word (c : Char) (hc : isWordChar c = true)
    (s : List Char) : negMatchAt (some c) s = false := by
  simp [negMatchAt, boundaryBefore, hc]

/-- `lastD` of a word-character run is a word character. -/
theorem lastD_word : ∀ (w : List Char), w.all isWordChar = true →
    ∀ (c : Char), isWordChar c = true → isWordChar (lastD c w) = true := by
  intro w
  induction w with
  | nil => intro _ c hc; exact hc
  | cons a w' ih =>
    intro hall c _
    rw [List.all_cons, Bool.and_eq_true] at hall
    exact ih hall.2 a hall.1

/-- Scanning across a run of word characters produces no match attempt
that can succeed; the scan resumes after the run. -/
theorem scan_skip_run : ∀ (w : List Char), w.all isWordChar = true →
    ∀ (c0 : Char), isWordChar c0 = true → ∀ (rest : List Char),
    negScanAux (some c0) (w ++ rest) = negScanAux (some (lastD c0 w)) rest := by
  intro w
  induction w with
  | nil => intro _ c0 _ rest; rfl
  | cons a w' ih =>
    intro hall c0 hc0 rest
    rw [List.all_cons, Bool.and_eq_true] at hall
    have step : negScanAux (some c0) ((a :: w') ++ rest) =
        (negMatchAt (some c0) ((a :: w') ++ rest) ||
          negScanAux (some a) (w' ++ rest)) := rfl
    rw [step, negMatchAt_after_word c0 hc0, Bool.false_or,
      ih hall.2 a hall.1 rest]
    rfl

/-- Every threat term of the negation regex is made of word characters. -/
theorem negThreatWords_all_word : ∀ tw ∈ negThreatWords,
    tw.all isWordChar = true := by decide

/-- Every word-only negation word is made of word characters. -/
theorem negSixTokens_all_word : ∀ nw ∈ negSixTokens,
    nw.all isWordChar = true := by decide

/-- A list is a `isPrefixOf`-prefix of itself followed by anything. -/
theorem isPrefixOf_self_append : ∀ (l t : List Char),
    l.isPrefixOf (l ++ t) = true := by
  intro l t
  induction l with
  | nil => cases t <;> rfl
  | cons a l' ih =>
    show ((a == a) && l'.isPrefixOf (l' ++ t)) = true
    rw [beq_self_eq_true, Bool.true_and, ih]

/-- On a token followed by the rest of a join, a word-character keyword
can match with a trailing boundary only by being the whole token. -/
theorem prefix_whole_token : ∀ (nw w t : List Char),
    nw.all isWordChar = true → w.all isWordChar = true →
    (t = [] ∨ ∃ t', t = ' ' :: t') →
    nw.isPrefixOf (w ++ t) = true →
    boundaryAfter ((w ++ t).drop nw.length) = true →
    nw = w := by
  intro nw
  induction nw with
  | nil =>
    intro w t _ hw _ _ hba
    cases w with
    | nil => rfl
    | cons c w' =>
      exfalso
      rw [List.all_cons, Bool.and_eq_true] at hw
      simp [boundaryAfter, hw.1] at hba
  | cons a nw' ih =>
    intro w t hnw hw ht hpre hba
    rw [List.all_cons, Bool.and_eq_true] at hnw
    cases w with
    | nil =>
      exfalso
      rcases ht with rfl | ⟨t', rfl⟩
      · simp [List.isPrefixOf] at hpre
      · rw [List.nil_append] at hpre
        have : (a == ' ') = true ∧ nw'.isPrefixOf t' = true := by
          rw [← Bool.and_eq_true]; exact hpre
        rw [beq_iff_eq] at this
        rw [this.1] at hnw
        exact absurd hnw.1 (by decide)
    | cons c w' =>
      rw [List.all_cons, Bool.and_eq_true] at hw
      have hpre' : (a == c) = true ∧ nw'.isPrefixOf (w' ++ t) = true := by
        rw [← Bool.and_eq_true]; exact hpre
      have hba' : boundaryAfter ((w' ++ t).drop nw'.length) = true := by
        rw [List.cons_append, show (a :: nw').length = nw'.length + 1 from rfl,
          List.drop_succ_cons] at hba
        exact hba
      rw [beq_iff_eq] at hpre'
      rw [hpre'.1, ih w' t hnw.2 hw.2 ht hpre'.2 hba']

/-- The `n't` alternative never matches at a token start of a join: the
token's characters are all word characters, and the joining space cannot
be the apostrophe. -/
theorem napost_never_matches (w t : List Char) (hw : goodToken w = true)
    (ht : t = [] ∨ ∃ t', t = ' ' :: t') :
    ['n', apostropheChar, 't'].isPrefixOf (w ++ t) = false := by
  obtain ⟨c, w', rfl⟩ : ∃ c w', w = c :: w' := by
    cases w with
    | nil => simp [goodToken] at hw
    | cons c w' => exact ⟨c, w', rfl⟩
  obtain ⟨hc, hw'⟩ := goodToken_cons hw
  show (('n' == c) && (List.isPrefixOf [apostropheChar, 't'] (w' ++ t))) = false
  by_cases hcn : c = 'n'
  · subst hcn
    rw [beq_self_eq_true, Bool.true_and]
    cases w' with
    | nil =>
      rcases ht with rfl | ⟨t', rfl⟩
      · rfl
      · show ((apostropheChar == ' ') && _) = false
        rw [show (apostropheChar == ' ') = false from by decide, Bool.false_and]
    | cons d w'' =>
      rw [List.all_cons, Bool.and_eq_true] at hw'
      show ((apostropheChar == d) && _) = false
      have hd : (apostropheChar == d) = false := by
        rw [beq_eq_false_iff_ne]
        intro he
        rw [← he] at hw'
        exact absurd hw'.1 (by decide)
      rw [hd, Bool.false_and]
  · have : (('n' : Char) == c) = false := by
      rw [beq_eq_false_iff_ne]
      exact fun he => hcn he.symm
    rw [this, Bool.false_and]

/-- After a negation word, the `\s+\w+` window over the rest of a join
hits a threat term iff one of the next `fuel + 1` tokens is one. -/
theorem window_sep : ∀ (ws : List (List Char)),
    (∀ v ∈ ws, goodToken v = true) →
    ∀ fuel, negWindowMatch fuel (sepTail ws) = windowHit fuel ws := by
  intro ws
  induction ws with
  | nil =>
    intro _ fuel
    cases fuel <;> rfl
  | cons v vs ih =>
    intro hgood fuel
    have hv := hgood v (List.mem_cons_self v vs)
    have hvs : ∀ u ∈ vs, goodToken u = true :=
      fun u hu => hgood u (List.mem_cons_of_mem v hu)
    obtain ⟨c, v', rfl⟩ : ∃ c v', v = c :: v' := by
      cases v with
      | nil => simp [goodToken] at hv
      | cons c v' => exact ⟨c, v', rfl⟩
    obtain ⟨hc, hv'⟩ := goodToken_cons hv
    have hsp : (sepTail ((c :: v') :: vs)).takeWhile isSpaceChar = [' '] := by
      show (' ' :: ((c :: v') ++ sepTail vs)).takeWhile isSpaceChar = [' ']
      rw [List.takeWhile_cons, if_pos (by decide), List.cons_append,
        List.takeWhile_cons, if_neg (by simp [word_not_space c hc])]
    have hrest : (sepTail ((c :: v') :: vs)).dropWhile isSpaceChar =
        (c :: v') ++ sepTail vs := by
      show (' ' :: ((c :: v') ++ sepTail vs)).dropWhile isSpaceChar = _
      rw [List.dropWhile_cons, if_pos (by decide), List.cons_append,
        List.dropWhile_cons, if_neg (by simp [word_not_space c hc])]
    have hthreat : threatAt (sepTail ((c :: v') :: vs)) =
        decide ((c :: v') ∈ negThreatWords) := by
      by_cases hm : (c :: v') ∈ negThreatWords
      · rw [decide_eq_true hm]
        simp only [threatAt, hsp, hrest]
        rw [show (!([' '] : List Char).isEmpty) = true from rfl, Bool.true_and,
          List.any_eq_true]
        refine ⟨c :: v', hm, ?_⟩
        rw [Bool.and_eq_true]
        refine ⟨isPrefixOf_self_append _ _, ?_⟩
        rw [List.drop_left]
        rcases sepTail_shape vs with h0 | ⟨t', h0⟩ <;> rw [h0] <;> rfl
      · rw [decide_eq_false hm, Bool.eq_false_iff]
        intro hT
        simp only [threatAt, hsp, hrest] at hT
        rw [Bool.and_eq_true, List.any_eq_true] at hT
        obtain ⟨_, tw, htw, hpb⟩ := hT
        rw [Bool.and_eq_true] at hpb
        have htw_eq : tw = c :: v' :=
          prefix_whole_token tw (c :: v') (sepTail vs)
            (negThreatWords_all_word tw htw)
            (by rw [List.all_cons, Bool.and_eq_true]; exact ⟨hc, hv'⟩)
            (sepTail_shape vs) hpb.1 hpb.2
        exact hm (htw_eq ▸ htw)
    have hrep := takeWhile_append_run (p := isWordChar) (c :: v')
      (sepTail vs)
      (by rw [List.all_cons, Bool.and_eq_true]; exact ⟨hc, hv'⟩)
      (by
        intro d t' hdt
        rcases sepTail_shape vs with h0 | ⟨u, h0⟩
        · rw [h0] at hdt; exact absurd hdt (by simp)
        · rw [h0] at hdt
          injection hdt with h1 _
          rw [← h1]; decide)
    cases fuel with
    | zero =>
      show threatAt (sepTail ((c :: v') :: vs)) = _
      rw [hthreat]
      rfl
    | succ f =>
      simp only [negWindowMatch, hsp, hrest, hrep.1, hrep.2, hthreat,
        ih hvs f]
      simp [windowHit]

/-- On a space-joined token text, the negation scan reduces to match
attempts at token starts. -/
theorem scan_tokens : ∀ (ws : List (List Char)),
    (∀ w ∈ ws, goodToken w = true) →
    ∀ prev : Option Char, boundaryBefore prev = true →
    negScanAux prev (sepText ws) = tokenScan ws := by
  intro ws
  induction ws with
  | nil => intro _ prev _; rfl
  | cons w ws' ih =>
    intro hgood prev hprev
    have hw := hgood w (List.mem_cons_self w ws')
    have hws' : ∀ v ∈ ws', goodToken v = true :=
      fun v hv => hgood v (List.mem_cons_of_mem w hv)
    obtain ⟨a, w'', rfl⟩ : ∃ a w'', w = a :: w'' := by
      cases w with
      | nil => simp [goodToken] at hw
      | cons a w'' => exact ⟨a, w'', rfl⟩
    obtain ⟨ha, hw''⟩ := goodToken_cons hw
    have step : negScanAux prev (sepText ((a :: w'') :: ws')) =
        (negMatchAt prev (sepText ((a :: w'') :: ws')) ||
          negScanAux (some a) (w'' ++ sepTail ws')) := rfl
    rw [step, scan_skip_run w'' hw'' a ha (sepTail ws')]
    have hlast : isWordChar (lastD a w'') = true := lastD_word w'' hw'' a ha
    have hAt : negMatchAt prev (sepText ((a :: w'') :: ws')) =
        negMatchCore (sepText ((a :: w'') :: ws')) := by
      rw [negMatchAt, hprev, Bool.true_and]
    cases ws' with
    | nil =>
      rw [show sepTail ([] : List (List Char)) = [] from rfl,
        show negScanAux (some (lastD a w'')) [] = false from rfl, hAt]
      rfl
    | cons v vs =>
      rw [show sepTail (v :: vs) = ' ' :: sepText (v :: vs) from rfl,
        show negScanAux (some (lastD a w'')) (' ' :: sepText (v :: vs)) =
          (negMatchAt (some (lastD a w'')) (' ' :: sepText (v :: vs)) ||
            negScanAux (some ' ') (sepText (v :: vs))) from rfl,
        negMatchAt_after_word _ hlast, Bool.false_or,
        ih hws' (some ' ') rfl, hAt]
      rfl

/-- A successful match attempt at a token start names the token as one of
the word-character negation words and hits a threat term in the window. -/
theorem negMatchCore_sep (w : List Char) (ws : List (List Char))
    (hw : goodToken w = true) (hws : ∀ v ∈ ws, goodToken v = true)
    (h : negMatchCore (sepText (w :: ws)) = true) :
    w ∈ negSixTokens ∧ windowHit 6 ws = true := by
  have hst : sepText (w :: ws) = w ++ sepTail ws := rfl
  simp only [negMatchCore] at h
  rw [List.any_eq_true] at h
  obtain ⟨nw, hmem, hnw⟩ := h
  rw [Bool.and_eq_true, Bool.and_eq_true] at hnw
  have hpre := hnw.1
  have hba := hnw.2.1
  have hwin := hnw.2.2
  rw [hst] at hpre hba hwin
  have hwall : w.all isWordChar = true := by
    have hw' := hw
    simp only [goodToken] at hw'
    rw [Bool.and_eq_true] at hw'
    exact hw'.2
  have hmem' : nw ∈ negSixTokens ++ [['n', apostropheChar, 't']] := hmem
  rcases List.mem_append.mp hmem' with h1 | h2
  · have hnweq : nw = w :=
      prefix_whole_token nw w (sepTail ws) (negSixTokens_all_word nw h1)
        hwall (sepTail_shape ws) hpre hba
    subst hnweq
    refine ⟨h1, ?_⟩
    rw [List.drop_left] at hwin
    rw [window_sep ws hws 6] at hwin
    exact hwin
  · rw [List.mem_singleton] at h2
    subst h2
    rw [napost_never_matches w (sepTail ws) hw (sepTail_shape ws)] at hpre
    exact absurd hpre (by simp)

/-- Separation soundness: if every negation token is more than 6 words
before every later threat term, no token-start match attempt succeeds. -/
theorem sepOK_tokenScan : ∀ ws : List (List Char),
    (∀ v ∈ ws, goodToken v = true) → sepOK ws = true →
    tokenScan ws = false := by
  intro ws
  induction ws with
  | nil => intro _ _; rfl
  | cons w ws' ih =>
    intro hgood hsep
    rw [show sepOK (w :: ws') =
        ((!decide (w ∈ negSixTokens) || !windowHit 6 ws') && sepOK ws')
      from rfl, Bool.and_eq_true] at hsep
    have hws' : ∀ v ∈ ws', goodToken v = true :=
      fun v hv => hgood v (List.mem_cons_of_mem w hv)
    rw [show tokenScan (w :: ws') =
        (negMatchCore (sepText (w :: ws')) || tokenScan ws') from rfl,
      ih hws' hsep.2, Bool.or_false, Bool.eq_false_iff]
    intro hne
    obtain ⟨hmem, hwin⟩ :=
      negMatchCore_sep w ws' (hgood w (List.mem_cons_self w ws')) hws' hne
    have h1 := hsep.1
    rw [decide_eq_true hmem, hwin] at h1
    simp at h1

/-- `wordsOfAux` moves a word-character run wholesale into the
accumulator. -/
theorem wordsOfAux_append : ∀ (w acc rest : List Char),
    w.all isWordChar = true →
    wordsOfAux acc (w ++ rest) = wordsOfAux (w.reverse ++ acc) rest := by
  intro w
  induction w with
  | nil => intro acc rest _; rfl
  | cons c w' ih =>
    intro acc rest hall
    rw [List.all_cons, Bool.and_eq_true] at hall
    rw [List.cons_append]
    simp only [wordsOfAux]
    rw [if_pos hall.1, ih (c :: acc) rest hall.2]
    congr 1
    rw [List.reverse_cons, List.append_assoc]
    rfl

/-- Splitting a space-joined token text recovers exactly the tokens. -/
theorem wordsOf_sep : ∀ ws : List (List Char),
    (∀ v ∈ ws, goodToken v = true) → wordsOf (sepText ws) = ws := by
  intro ws
  induction ws with
  | nil => intro _; rfl
  | cons w ws' ih =>
    intro hgood
    have hw := hgood w (List.mem_cons_self w ws')
    have hws' : ∀ v ∈ ws', goodToken v = true :=
      fun v hv => hgood v (List.mem_cons_of_mem w hv)
    simp only [goodToken] at hw
    rw [Bool.and_eq_true] at hw
    have hwall := hw.2
    have hrevne : w.reverse.isEmpty = false := by
      rw [List.isEmpty_eq_false]
      intro hrev
      rw [List.reverse_eq_nil_iff] at hrev
      rw [hrev] at hw
      exact absurd hw.1 (by decide)
    rw [wordsOf, show sepText (w :: ws') = w ++ sepTail ws' from rfl,
      wordsOfAux_append w [] (sepTail ws') hwall, List.append_nil]
    cases ws' with
    | nil =>
      rw [show sepTail ([] : List (List Char)) = [] from rfl]
      rw [show wordsOfAux w.reverse [] =
          (if w.reverse.isEmpty then [] else [w.reverse.reverse]) from rfl]
      rw [if_neg (by simp [hrevne]), List.reverse_reverse]
    | cons v vs =>
      rw [show sepTail (v :: vs) = ' ' :: sepText (v :: vs) from rfl]
      simp only [wordsOfAux]
      rw [if_neg (by decide), if_neg (by simp [hrevne]),
        List.reverse_reverse]
      show w :: wordsOf (sepText (v :: vs)) = w :: v :: vs
      rw [ih hws']

/-- Characters whose lowercasing is fixed stay fixed under `map`. -/
theorem map_toLower_fixed (l : List Char)
    (h : ∀ c ∈ l, Char.toLower c = c) : l.map Char.toLower = l := by
  induction l with
  | nil => rfl
  | cons c l' ih =>
    rw [List.map_cons, h c (List.mem_cons_self c l'),
      ih (fun d hd => h d (List.mem_cons_of_mem c hd))]

/-- Lowercasing is fixed on all characters of the tail of a join of
lowercase-fixed tokens. -/
theorem sepTail_lower : ∀ ws : List (List Char),
    (∀ w ∈ ws, ∀ c ∈ w, Char.toLower c = c) →
    ∀ c ∈ sepTail ws, Char.toLower c = c := by
  intro ws
  induction ws with
  | nil => intro _ c hc; cases hc
  | cons w ws' ih =>
    intro h c hc
    rw [show sepTail (w :: ws') = ' ' :: (w ++ sepTail ws') from rfl] at hc
    rcases List.mem_cons.mp hc with rfl | hc'
    · decide
    · rcases List.mem_append.mp hc' with hcw | hct
      · exact h w (List.mem_cons_self w ws') c hcw
      · exact ih (fun u hu => h u (List.mem_cons_of_mem w hu)) c hct

/-- C4: on a space-joined text of nonempty lowercase word-character
tokens in which every negation token is followed by a threat term only
after more than 6 intervening words, the negation regex does not match,
so a strong keyword among the tokens makes the classifier return `true`;
and concretely the window bound is exactly 6: a negation 6 words before
`gun` suppresses it, one 7 words before does not. -/
theorem negation_window_bound :
    (∀ ws : List (List Char),
      (∀ w ∈ ws, goodToken w = true) →
      (∀ w ∈ ws, ∀ c ∈ w, Char.toLower c = c) →
      sepOK ws = true →
      (∃ w ∈ ws, w ∈ strongWords) →
      isThreatDescription (some (String.mk (sepText ws))) = true) ∧
    isThreatDescription (some "no a b c d e f gun") = false ∧
    isThreatDescription (some "no a b c d e f g gun") = true := by
  refine ⟨?_, by decide, by decide⟩
  intro ws hgood hlower hsep hstrong
  obtain ⟨w0, hw0mem, hw0strong⟩ := hstrong
  have hne : sepText ws ≠ [] := by
    cases ws with
    | nil => exact absurd hw0mem (List.not_mem_nil w0)
    | cons w ws' =>
      have hw := hgood w (List.mem_cons_self w ws')
      obtain ⟨c, w', rfl⟩ : ∃ c w', w = c :: w' := by
        cases w with
        | nil => simp [goodToken] at hw
        | cons c w' => exact ⟨c, w', rfl⟩
      rw [show sepText ((c :: w') :: ws') = c :: (w' ++ sepTail ws')
        from rfl]
      exact List.cons_ne_nil c _
  have hsne : String.mk (sepText ws) ≠ "" := by
    intro h
    have h2 : (String.mk (sepText ws)).data = ("" : String).data :=
      congrArg String.data h
    rw [show (String.mk (sepText ws)).data = sepText ws from rfl,
      show ("" : String).data = [] from rfl] at h2
    exact hne h2
  rw [show isThreatDescription (some (String.mk (sepText ws))) =
      (if String.mk (sepText ws) = "" then false
       else classifyChars (lowerData (String.mk (sepText ws)))) from rfl,
    if_neg hsne]
  have hld : lowerData (String.mk (sepText ws)) = sepText ws := by
    rw [lowerData, show (String.mk (sepText ws)).data = sepText ws from rfl]
    apply map_toLower_fixed
    intro c hc
    cases ws with
    | nil => cases hc
    | cons w ws' =>
      rw [show sepText (w :: ws') = w ++ sepTail ws' from rfl] at hc
      rcases List.mem_append.mp hc with hcw | hct
      · exact hlower w (List.mem_cons_self w ws') c hcw
      · exact sepTail_lower ws'
          (fun u hu => hlower u (List.mem_cons_of_mem w hu)) c hct
  rw [hld]
  have hneg : negationTest (sepText ws) = false := by
    rw [negationTest, scan_tokens ws hgood none rfl]
    exact sepOK_tokenScan ws hgood hsep
  have hstrongT : strongTest (sepText ws) = true := by
    simp only [strongTest]
    rw [List.any_eq_true]
    refine ⟨w0, hw0strong, ?_⟩
    simp only [containsWord]
    rw [wordsOf_sep ws hgood]
    exact List.elem_eq_true_of_mem hw0mem
  simp [classifyChars, hneg, hstrongT]

/-- Witness for C4 at a concrete separated text: `no` followed by seven
filler words and then `gun`. -/
theorem negation_window_bound_witness :
    isThreatDescription (some (String.mk (sepText
      (["no", "a", "b", "c", "d", "e", "f", "g", "gun"].map
        String.data)))) = true :=
  negation_window_bound.1 _ (by decide) (by decide) (by decide) (by decide)
